import Mathlib

/-!
Shallow embedding of the shortcode locating engine of
`src/components/rendering/src/shortcode/parse.rs`, together with the span
translation helpers (`range_shift`, `get_range_relation`,
`update_on_source_insert`) of the same file.

Source strings are modelled as lists of characters (`Chars`), positions as
natural numbers.  The two logos lexers (`Openers`, `Closers`) are embedded by
their token regexes with maximal-munch semantics; runs matching the skip
regexes (`[^{]+` resp. `[^%}]+`) are skipped character by character, which is
observably equivalent.  The `while let Some(..) = lex.next()` loop of
`fetch_shortcodes` is embedded with an explicit fuel argument; since every
iteration advances the lexer by at least one character, `source.length + 1`
units of fuel are never exhausted.

The inner-tag parser (`InnerTag::lex_parse`, file `inner_tag.rs`) and the
argument values (`arg_value.rs`) are not part of the given sources; they are
modelled from the specification (see the doc comments below).
-/

namespace ZolaShortcode

/-- Characters of the whitespace class `[ \t\n\f]` used by the lexer regexes. -/
def isWs (c : Char) : Bool := c == ' ' || c == '\t' || c == '\n' || c == '\x0c'

/-- Source text, one entry per character. -/
abbrev Chars := List Char

/-- The character `\x7b` (opening curly brace). -/
def lbrace : Char := '\x7b'

/-- The character `\x7d` (closing curly brace). -/
def rbrace : Char := '\x7d'

/-- Slice `s[a..b]` of a source string (Rust `&source[a..b]`). -/
def sub (s : Chars) (a b : Nat) : Chars := (s.drop a).take (b - a)

/-- Length of the maximal whitespace run at the head of a string. -/
def wsRunAux : Chars → Nat
  | [] => 0
  | c :: cs => if isWs c then wsRunAux cs + 1 else 0

/-- Position just after the maximal whitespace run starting at `i`. -/
def wsEnd (s : Chars) (i : Nat) : Nat := i + wsRunAux (s.drop i)

/-- Tokens used for the initial parsing of source strings (the `Openers`
logos lexer of `parse.rs`). -/
inductive Openers where
  | EndBlock
  | Body
  | Normal
  | Error
deriving DecidableEq

/-- End position of an `EndBlock` token
(`[{]%[ \t\n\f]*[eE][nN][dD][ \t\n\f]*%[}]`) starting at `i`, if one matches. -/
def endBlockEnd (s : Chars) (i : Nat) : Option Nat :=
  if s.get? i = some lbrace ∧ s.get? (i+1) = some '%' then
    if (s.get? (wsEnd s (i+2)) = some 'e' ∨ s.get? (wsEnd s (i+2)) = some 'E') ∧
       (s.get? (wsEnd s (i+2) + 1) = some 'n' ∨ s.get? (wsEnd s (i+2) + 1) = some 'N') ∧
       (s.get? (wsEnd s (i+2) + 2) = some 'd' ∨ s.get? (wsEnd s (i+2) + 2) = some 'D') then
      if s.get? (wsEnd s (wsEnd s (i+2) + 3)) = some '%' ∧
         s.get? (wsEnd s (wsEnd s (i+2) + 3) + 1) = some rbrace then
        some (wsEnd s (wsEnd s (i+2) + 3) + 2)
      else none
    else none
  else none

/-- The `Openers` token starting exactly at position `i`, with its end
position: `EndBlock` wins over `Body` by maximal munch; `Body` is
`[{]%[ \t\n\f]*`; `Normal` is `[{][{][ \t\n\f]*`; a `{` followed by neither
`{` nor `%` is an error token of width one.  Characters other than `{` start
no token (they belong to the skip regex `[^{]+`). -/
def openersTokAt (s : Chars) (i : Nat) : Option (Openers × Nat) :=
  if s.get? i = some lbrace then
    if s.get? (i+1) = some lbrace then some (Openers.Normal, wsEnd s (i+2))
    else if s.get? (i+1) = some '%' then
      match endBlockEnd s i with
      | some e => some (Openers.EndBlock, e)
      | none => some (Openers.Body, wsEnd s (i+2))
    else some (Openers.Error, i+1)
  else none

/-- Scan helper for `openersNext`: the list argument is the remaining
suffix `s.drop i`, so the recursion is structural. -/
def openersNextAux (s : Chars) : Nat → Chars → Option (Openers × Nat × Nat)
  | _, [] => none
  | i, _ :: rest =>
    match openersTokAt s i with
    | some (t, e) => some (t, i, e)
    | none => openersNextAux s (i+1) rest

/-- Next `Openers` token at or after position `i` (what `lex.next()` of the
`Openers` lexer returns, with its span). -/
def openersNext (s : Chars) (i : Nat) : Option (Openers × Nat × Nat) :=
  openersNextAux s i (s.drop i)

/-- Tokens used for parsing after the inner tag has been established (the
`Closers` logos lexer of `parse.rs`). -/
inductive Closers where
  | Body
  | Normal
  | Error
deriving DecidableEq

/-- The `Closers` token starting exactly at position `i`:
`Body` is `[ \t\n\f]*%[}]`, `Normal` is `[ \t\n\f]*[}][}]`.  Characters other
than `%` and `}` belong to the skip regex `[^%}]+`. -/
def closerTokAt (s : Chars) (i : Nat) : Option (Closers × Nat) :=
  if s.get? (wsEnd s i) = some '%' ∧ s.get? (wsEnd s i + 1) = some rbrace then
    some (Closers.Body, wsEnd s i + 2)
  else if s.get? (wsEnd s i) = some rbrace ∧ s.get? (wsEnd s i + 1) = some rbrace then
    some (Closers.Normal, wsEnd s i + 2)
  else none

/-- Scan helper for `closersNext`; the list argument is `s.drop i`.  A `%` or
`}` that starts no closer token is an error token. -/
def closersNextAux (s : Chars) : Nat → Chars → Option (Closers × Nat × Nat)
  | _, [] => none
  | i, c :: rest =>
    match closerTokAt s i with
    | some (t, e) => some (t, i, e)
    | none =>
      if c = '%' ∨ c = rbrace then some (Closers.Error, i, i+1)
      else closersNextAux s (i+1) rest

/-- Next `Closers` token at or after position `i` (what `closing.next()`
returns, with its span). -/
def closersNext (s : Chars) (i : Nat) : Option (Closers × Nat × Nat) :=
  closersNextAux s i (s.drop i)

/-- Modelled from the spec: the argument value type of `arg_value.rs`, which
is not among the given sources.  Spec 3: tagged union
`Boolean(bool) | Number(numeric) | Text(string) | List(sequence)`; numeric
literals are modelled as integers. -/
inductive ArgValue where
  | Boolean (b : Bool)
  | Number (n : Int)
  | Text (t : Chars)
  | ListV (l : List ArgValue)

/-- Identifier start characters (letters and underscore). -/
def isIdentStart (c : Char) : Bool := c.isAlpha || c == '_'

/-- Identifier continuation characters (letters, digits, underscore). -/
def isIdentChar (c : Char) : Bool := c.isAlphanum || c == '_'

/-- End position of an identifier starting at `i`, if one starts there. -/
def identEnd (s : Chars) (i : Nat) : Option Nat :=
  match s.get? i with
  | some c =>
    if isIdentStart c then some (i + 1 + ((s.drop (i+1)).takeWhile isIdentChar).length)
    else none
  | none => none

/-- Numeric value of a digit string. -/
def natOfDigits (l : Chars) : Nat := l.foldl (fun a c => a * 10 + (c.toNat - 48)) 0

/-- Length of the digit run starting at `i`. -/
def digitsRun (s : Chars) (i : Nat) : Nat := ((s.drop i).takeWhile Char.isDigit).length

/-- Position just after the closing quote of a string literal whose opening
quote is at `i - 1`; `\"` and `\\` escapes are skipped. -/
def stringEnd (s : Chars) : Nat → Nat → Option Nat
  | 0, _ => none
  | fuel+1, i =>
    match s.get? i with
    | none => none
    | some c =>
      if c = '"' then some (i+1)
      else if c = '\\' then
        match s.get? (i+1) with
        | none => none
        | some _ => stringEnd s fuel (i+2)
      else stringEnd s fuel (i+1)

/-- Tests whether the word `w` occurs at position `i` of `s`. -/
def wordAt (s : Chars) : Nat → Chars → Bool
  | _, [] => true
  | i, c :: cs => s.get? i == some c && wordAt s (i+1) cs

/-- Tests whether the character at `i` is an identifier character. -/
def identCharAt (s : Chars) (i : Nat) : Bool :=
  match s.get? i with
  | some c => isIdentChar c
  | none => false

/-- Result of `parseLitAux`: a single literal or a literal list. -/
inductive LitRes where
  | one (v : ArgValue) (e : Nat)
  | many (l : List ArgValue) (e : Nat)

/-- Modelled from the spec: the literal grammar of the Tag Parser
(`inner_tag.rs`, not among the given sources).  Spec 4.2: literals are
booleans, numeric literals, quoted strings (with escapes) and bracketed
lists of literals, recursively.  The flag selects between parsing one
literal (`false`) and the item list of a bracketed list (`true`). -/
def parseLitAux (s : Chars) : Nat → Bool → Nat → Option LitRes
  | 0, _, _ => none
  | fuel+1, false, i0 =>
    let i := wsEnd s i0
    match s.get? i with
    | none => none
    | some c =>
      if c = '"' then
        match stringEnd s s.length (i+1) with
        | some e => some (.one (.Text (sub s (i+1) (e-1))) e)
        | none => none
      else if c = '[' then
        match parseLitAux s fuel true (wsEnd s (i+1)) with
        | some (.many l e) => some (.one (.ListV l) e)
        | _ => none
      else if c = '-' then
        if digitsRun s (i+1) = 0 then none
        else some (.one (.Number (-(natOfDigits (sub s (i+1) (i+1+digitsRun s (i+1))) : Int)))
                        (i+1+digitsRun s (i+1)))
      else if c.isDigit then
        some (.one (.Number ((natOfDigits (sub s i (i+digitsRun s i)) : Int))) (i+digitsRun s i))
      else if wordAt s i ("true".toList) && !identCharAt s (i+4) then
        some (.one (.Boolean true) (i+4))
      else if wordAt s i ("false".toList) && !identCharAt s (i+5) then
        some (.one (.Boolean false) (i+5))
      else none
  | fuel+1, true, i =>
    if s.get? i = some ']' then some (.many [] (i+1))
    else
      match parseLitAux s fuel false i with
      | some (.one v e) =>
        let j := wsEnd s e
        if s.get? j = some ',' then
          match parseLitAux s fuel true (wsEnd s (j+1)) with
          | some (.many l e2) => some (.many (v :: l) e2)
          | _ => none
        else if s.get? j = some ']' then some (.many [v] (j+1))
        else none
      | _ => none

/-- Modelled from the spec: the argument list of the Tag Parser
(`inner_tag.rs`, not among the given sources).  Spec 4.2: a comma separated
sequence of `identifier "=" literal`, ended by the closing parenthesis. -/
def parseArgsAux (s : Chars) : Nat → Nat → Option (List (Chars × ArgValue) × Nat)
  | 0, _ => none
  | fuel+1, i =>
    match identEnd s i with
    | none => none
    | some ne =>
      let nm := sub s i ne
      let j := wsEnd s ne
      if s.get? j = some '=' then
        match parseLitAux s s.length false (wsEnd s (j+1)) with
        | some (.one v e) =>
          let k := wsEnd s e
          if s.get? k = some ',' then
            match parseArgsAux s fuel (wsEnd s (k+1)) with
            | some (rest, e2) => some ((nm, v) :: rest, e2)
            | none => none
          else if s.get? k = some ')' then some ([(nm, v)], k+1)
          else none
        | _ => none
      else none

/-- Modelled from the spec: `InnerTag::lex_parse` (`inner_tag.rs`, not among
the given sources).  Spec 4.2: given text positioned just after an opening
marker, parse `identifier "(" [ argument ( "," argument )* ] ")"`, returning
the name, the parsed arguments and the residual position immediately after
the closing parenthesis; fail when the identifier is malformed or the
parentheses are unbalanced. -/
def InnerTag.lex_parse (s : Chars) (i0 : Nat) : Option (Chars × List (Chars × ArgValue) × Nat) :=
  let i := wsEnd s i0
  match identEnd s i with
  | none => none
  | some ne =>
    let nm := sub s i ne
    let j := wsEnd s ne
    if s.get? j = some '(' then
      let k := wsEnd s (j+1)
      if s.get? k = some ')' then some (nm, [], k+1)
      else
        match parseArgsAux s (s.length) k with
        | some (args, e) => some (nm, args, e)
        | none => none
    else none

/-- All the information present in a shortcode (struct `ShortcodeContext` of
`parse.rs`); the span is the half open range `[span.1, span.2)` into the
rewritten output string. -/
structure ShortcodeContext where
  name : Chars
  args : List (Chars × ArgValue)
  span : Nat × Nat
  body : Option Chars

/-- Frame for an open bodied shortcode (struct `BodiedStackItem` of
`parse.rs`). -/
structure BodiedStackItem where
  name : Chars
  args : List (Chars × ArgValue)
  openblock_span : Nat × Nat
  body_start : Nat

/-- The mutable state of the `fetch_shortcodes` loop. -/
structure LocState where
  output_str : Chars
  shortcodes : List ShortcodeContext
  current_body : Option BodiedStackItem
  last_lex_end : Nat

/-- The fixed placeholder token (`SHORTCODE_PLACEHOLDER` of `parse.rs`). -/
def SHORTCODE_PLACEHOLDER : Chars := ("\x7b\x7bSC()\x7d\x7d".toList)

/-- One `while let Some(open_tag) = lex.next()` loop of `fetch_shortcodes`,
with explicit fuel.  `pos` is the current position of the `lex` lexer. -/
def loop (src : Chars) : Nat → Nat → LocState → LocState
  | 0, _, st => st
  | fuel+1, pos, st =>
    match openersNext src pos with
    | none => st
    | some (tok, ts, te) =>
      if tok = Openers.EndBlock then
        match st.current_body with
        | some b =>
          loop src fuel te
            { output_str := st.output_str
              shortcodes := st.shortcodes ++
                [{ name := b.name
                   args := b.args
                   span := (st.output_str.length - (b.openblock_span.2 - b.openblock_span.1),
                            st.output_str.length)
                   body := some (sub src b.body_start ts) }]
              current_body := none
              last_lex_end := te }
        | none => loop src fuel te st
      else if st.current_body.isSome then
        loop src fuel te st
      else
        let st1 : LocState :=
          { st with output_str := st.output_str ++ sub src st.last_lex_end ts
                    last_lex_end := ts }
        match InnerTag.lex_parse src te with
        | none => loop src fuel te st1
        | some (nm, args, ie) =>
          match closersNext src ie with
          | none => loop src fuel src.length st1
          | some (ct, _cs, ce) =>
            if tok = Openers.Normal ∧ ct = Closers.Normal then
              loop src fuel ce
                { st1 with
                  output_str := st1.output_str ++ SHORTCODE_PLACEHOLDER
                  shortcodes := st1.shortcodes ++
                    [{ name := nm
                       args := args
                       span := (st1.output_str.length,
                                st1.output_str.length + SHORTCODE_PLACEHOLDER.length)
                       body := none }]
                  last_lex_end := ce }
            else if tok = Openers.Body ∧ ct = Closers.Body then
              loop src fuel ce
                { st1 with
                  output_str := st1.output_str ++ SHORTCODE_PLACEHOLDER
                  current_body := some
                    { name := nm
                      args := args
                      openblock_span := (st1.output_str.length,
                                         st1.output_str.length + SHORTCODE_PLACEHOLDER.length)
                      body_start := ce }
                  last_lex_end := ce }
            else loop src fuel te st1

/-- Fetch all shortcodes present in a source string (`fetch_shortcodes` of
`parse.rs`): returns the rewritten output string and the located contexts. -/
def fetch_shortcodes (src : Chars) : Chars × List ShortcodeContext :=
  let st := loop src (src.length + 1) 0
    { output_str := [], shortcodes := [], current_body := none, last_lex_end := 0 }
  (st.output_str ++ sub src st.last_lex_end src.length, st.shortcodes)

/-- Shift a range left or right by `translation` (`range_shift` of
`parse.rs`); `none` models the underflow failure. -/
def range_shift (range : Nat × Nat) (translation : Nat) (do_shift_right : Bool) :
    Option (Nat × Nat) :=
  if !do_shift_right then
    if range.1 < translation then none
    else some (range.1 - translation, range.2 - translation)
  else some (range.1 + translation, range.2 + translation)

/-- The possible relationships of a position to a span (enum
`RangeToPositionRelation` of `parse.rs`). -/
inductive RangeToPositionRelation where
  | Before
  | Within
  | After
deriving DecidableEq

/-- Relation between a position and a span, mirroring the match of
`ShortcodeContext::get_range_relation` arm for arm. -/
def get_range_relation (span : Nat × Nat) (position : Nat) : RangeToPositionRelation :=
  match decide (position < span.1), decide (position ≥ span.2) with
  | false, false => RangeToPositionRelation.Within
  | true, _ => RangeToPositionRelation.Before
  | _, true => RangeToPositionRelation.After

/-- Span update on a source edit (`ShortcodeContext::update_on_source_insert`
of `parse.rs`); `none` models the panic of the `unwrap` on an underflowing
left shift. -/
def update_on_source_insert (span : Nat × Nat) (position original_length new_length : Nat) :
    Option (Nat × Nat) :=
  let delta := if original_length < new_length then new_length - original_length
               else original_length - new_length
  match get_range_relation span position with
  | RangeToPositionRelation.Before =>
    range_shift span delta (decide (original_length < new_length))
  | _ => some span

/-! Helper lemmas about slicing and the lexers. -/

/-- Adjacent slices concatenate. -/
lemma take_append_sub (s : Chars) (a b : Nat) (h : a ≤ b) :
    s.take a ++ sub s a b = s.take b := by
  unfold sub
  have hb : a + (b - a) = b := by omega
  calc s.take a ++ (s.drop a).take (b - a)
      = s.take (a + (b - a)) := (List.take_add s a (b - a)).symm
    _ = s.take b := by rw [hb]

/-- Taking a prefix and the slice up to the length recovers the string. -/
lemma take_append_sub_length (s : Chars) (a : Nat) :
    s.take a ++ sub s a s.length = s := by
  rcases le_or_lt a s.length with h | h
  · rw [take_append_sub s a s.length h, List.take_length]
  · have h1 : s.take a = s := List.take_of_length_le (le_of_lt h)
    have h2 : sub s a s.length = [] := by
      unfold sub
      rw [List.drop_eq_nil_of_le (le_of_lt h)]
      simp
    rw [h1, h2, List.append_nil]

/-- A whitespace run is no longer than the string it heads. -/
lemma wsRunAux_le_length (l : Chars) : wsRunAux l ≤ l.length := by
  induction l with
  | nil => simp [wsRunAux]
  | cons c cs ih =>
    simp only [wsRunAux, List.length_cons]
    split
    · omega
    · omega

/-- The position after a whitespace run does not move left. -/
lemma wsEnd_ge (s : Chars) (i : Nat) : i ≤ wsEnd s i := Nat.le_add_right i _

/-- The position after a whitespace run stays within the string. -/
lemma wsEnd_le (s : Chars) (i : Nat) (h : i ≤ s.length) : wsEnd s i ≤ s.length := by
  have h1 : wsRunAux (s.drop i) ≤ (s.drop i).length := wsRunAux_le_length _
  have h2 : (s.drop i).length = s.length - i := List.length_drop i s
  unfold wsEnd
  omega

/-- A successful `get?` certifies the position is within bounds. -/
lemma get?_lt {s : Chars} {i : Nat} {c : Char} (h : s.get? i = some c) : i < s.length :=
  (List.get?_eq_some.mp h).1

/-- A matched `EndBlock` token is nonempty and ends within the string. -/
lemma endBlockEnd_bounds {s : Chars} {i e : Nat} (h : endBlockEnd s i = some e) :
    i < e ∧ e ≤ s.length := by
  unfold endBlockEnd at h
  split at h
  · split at h
    · split at h
      · next h3 =>
        rw [Option.some.injEq] at h
        have hk : wsEnd s (wsEnd s (i+2) + 3) + 1 < s.length := get?_lt h3.2
        have g1 : i + 2 ≤ wsEnd s (i+2) := wsEnd_ge s (i+2)
        have g2 : wsEnd s (i+2) + 3 ≤ wsEnd s (wsEnd s (i+2) + 3) := wsEnd_ge s _
        omega
      · exact absurd h (by simp)
    · exact absurd h (by simp)
  · exact absurd h (by simp)

/-- A recognized opener token is nonempty, starts inside the string and ends
within it. -/
lemma openersTokAt_bounds {s : Chars} {i : Nat} {t : Openers} {e : Nat}
    (h : openersTokAt s i = some (t, e)) : i < s.length ∧ i < e ∧ e ≤ s.length := by
  unfold openersTokAt at h
  split at h
  · next h1 =>
    have hi : i < s.length := get?_lt h1
    split at h
    · next h2 =>
      have h2' : i + 1 < s.length := get?_lt h2
      have g1 : i + 2 ≤ wsEnd s (i+2) := wsEnd_ge s (i+2)
      have g2 : wsEnd s (i+2) ≤ s.length := wsEnd_le s (i+2) (by omega)
      rw [Option.some.injEq, Prod.mk.injEq] at h
      obtain ⟨-, he⟩ := h
      omega
    · split at h
      · next h2 =>
        have h2' : i + 1 < s.length := get?_lt h2
        split at h
        · next he =>
          rw [Option.some.injEq, Prod.mk.injEq] at h
          obtain ⟨-, he2⟩ := h
          have hb := endBlockEnd_bounds he
          omega
        · have g1 : i + 2 ≤ wsEnd s (i+2) := wsEnd_ge s (i+2)
          have g2 : wsEnd s (i+2) ≤ s.length := wsEnd_le s (i+2) (by omega)
          rw [Option.some.injEq, Prod.mk.injEq] at h
          obtain ⟨-, he⟩ := h
          omega
      · rw [Option.some.injEq, Prod.mk.injEq] at h
        obtain ⟨-, he⟩ := h
        omega
  · exact absurd h (by simp)

/-- What the opener scan returns is a token found at or after the scan
position. -/
lemma openersNextAux_some {s : Chars} :
    ∀ (l : Chars) (i : Nat) {t : Openers} {ts te : Nat},
      openersNextAux s i l = some (t, ts, te) →
      i ≤ ts ∧ openersTokAt s ts = some (t, te) := by
  intro l
  induction l with
  | nil => intro i t ts te h; exact absurd h (by simp [openersNextAux])
  | cons c rest ih =>
    intro i t ts te h
    unfold openersNextAux at h
    revert h
    cases htok : openersTokAt s i with
    | some p =>
      obtain ⟨t0, e0⟩ := p
      intro h
      rw [Option.some.injEq, Prod.mk.injEq, Prod.mk.injEq] at h
      obtain ⟨rfl, rfl, rfl⟩ := h
      exact ⟨le_refl _, htok⟩
    | none =>
      intro h
      have := ih (i+1) h
      exact ⟨by omega, this.2⟩

/-- Bounds for the opener scan. -/
lemma openersNext_some {s : Chars} {i : Nat} {t : Openers} {ts te : Nat}
    (h : openersNext s i = some (t, ts, te)) :
    i ≤ ts ∧ ts < te ∧ te ≤ s.length ∧ ts < s.length ∧
      openersTokAt s ts = some (t, te) := by
  obtain ⟨h1, h2⟩ := openersNextAux_some (s.drop i) i h
  have hb := openersTokAt_bounds h2
  exact ⟨h1, hb.2.1, hb.2.2, hb.1, h2⟩

/-- A token found exactly at position `i` is what the scan from `i` returns. -/
lemma openersNext_at_tok {s : Chars} {i : Nat} {t : Openers} {e : Nat}
    (hlt : i < s.length) (h : openersTokAt s i = some (t, e)) :
    openersNext s i = some (t, i, e) := by
  unfold openersNext
  rw [List.drop_eq_getElem_cons hlt]
  unfold openersNextAux
  rw [h]

/-- The scan from a position locates the same token that any earlier scan
reaching that position locates. -/
lemma openersNext_self {s : Chars} {i : Nat} {t : Openers} {ts te : Nat}
    (h : openersNext s i = some (t, ts, te)) :
    openersNext s ts = some (t, ts, te) := by
  obtain ⟨_, _, _, h4, h5⟩ := openersNext_some h
  exact openersNext_at_tok h4 h5

/-! Span invariant of the locator loop (claim C4). -/

/-- Invariant of the locator state: every emitted span is placeholder wide
and lies inside the output written so far, spans are emitted left to right
without overlap, and an open bodied frame is anchored at the placeholder
that was written for it, after every emitted span. -/
def SpanInv (st : LocState) : Prop :=
  (∀ c ∈ st.shortcodes,
     c.span.2 = c.span.1 + SHORTCODE_PLACEHOLDER.length ∧
     c.span.2 ≤ st.output_str.length) ∧
  st.shortcodes.Pairwise (fun a b => a.span.2 ≤ b.span.1) ∧
  ∀ b, st.current_body = some b →
    b.openblock_span.2 = b.openblock_span.1 + SHORTCODE_PLACEHOLDER.length ∧
    st.output_str.length = b.openblock_span.1 + SHORTCODE_PLACEHOLDER.length ∧
    ∀ c ∈ st.shortcodes, c.span.2 ≤ b.openblock_span.1

/-- Popping an open frame on an end marker preserves the span invariant. -/
lemma spanInv_pop (st : LocState) (b : BodiedStackItem) (hb : st.current_body = some b)
    (h : SpanInv st) (bdy : Option Chars) (z : Nat) :
    SpanInv { output_str := st.output_str,
              shortcodes := st.shortcodes ++
                [{ name := b.name, args := b.args,
                   span := (st.output_str.length - (b.openblock_span.2 - b.openblock_span.1),
                            st.output_str.length),
                   body := bdy }],
              current_body := none, last_lex_end := z } := by
  obtain ⟨h1, h2, h3⟩ := h
  obtain ⟨hw, hl, hd⟩ := h3 b hb
  refine ⟨?_, ?_, ?_⟩
  · intro c hc
    rcases List.mem_append.mp hc with hc | hc
    · exact (h1 c hc).imp id (fun q => q)
    · have hc' := List.mem_singleton.mp hc
      subst hc'
      simp only
      omega
  · rw [List.pairwise_append]
    refine ⟨h2, List.pairwise_singleton _ _, ?_⟩
    intro a ha c hc
    have hc' := List.mem_singleton.mp hc
    subst hc'
    have := hd a ha
    simp only
    omega
  · intro b' hb'
    exact absurd hb' (by simp)

/-- Appending output text while no frame is open preserves the invariant. -/
lemma spanInv_append (st : LocState) (hb : st.current_body = none)
    (h : SpanInv st) (x : Chars) (z : Nat) :
    SpanInv { output_str := st.output_str ++ x,
              shortcodes := st.shortcodes,
              current_body := st.current_body, last_lex_end := z } := by
  obtain ⟨h1, h2, h3⟩ := h
  refine ⟨?_, h2, ?_⟩
  · intro c hc
    have := h1 c hc
    simp only [List.length_append]
    exact ⟨this.1, by omega⟩
  · intro b' hb'
    rw [hb] at hb'
    exact absurd hb' (by simp)

/-- Emitting a self closing descriptor together with its placeholder
preserves the invariant. -/
lemma spanInv_emit (st : LocState) (hb : st.current_body = none)
    (h : SpanInv st) (nm : Chars) (args : List (Chars × ArgValue)) (z : Nat) :
    SpanInv { output_str := st.output_str ++ SHORTCODE_PLACEHOLDER,
              shortcodes := st.shortcodes ++
                [{ name := nm, args := args,
                   span := (st.output_str.length,
                            st.output_str.length + SHORTCODE_PLACEHOLDER.length),
                   body := none }],
              current_body := st.current_body, last_lex_end := z } := by
  obtain ⟨h1, h2, h3⟩ := h
  refine ⟨?_, ?_, ?_⟩
  · intro c hc
    rcases List.mem_append.mp hc with hc | hc
    · have := h1 c hc
      simp only [List.length_append]
      exact ⟨this.1, by omega⟩
    · have hc' := List.mem_singleton.mp hc
      subst hc'
      exact ⟨rfl, by simp⟩
  · rw [List.pairwise_append]
    refine ⟨h2, List.pairwise_singleton _ _, ?_⟩
    intro a ha c hc
    have hc' := List.mem_singleton.mp hc
    subst hc'
    have := h1 a ha
    simp only
    omega
  · intro b' hb'
    rw [hb] at hb'
    exact absurd hb' (by simp)

/-- Opening a bodied frame together with its placeholder preserves the
invariant. -/
lemma spanInv_open (st : LocState) (hb : st.current_body = none)
    (h : SpanInv st) (nm : Chars) (args : List (Chars × ArgValue)) (bs z : Nat) :
    SpanInv { output_str := st.output_str ++ SHORTCODE_PLACEHOLDER,
              shortcodes := st.shortcodes,
              current_body := some
                { name := nm, args := args,
                  openblock_span := (st.output_str.length,
                                     st.output_str.length + SHORTCODE_PLACEHOLDER.length),
                  body_start := bs },
              last_lex_end := z } := by
  obtain ⟨h1, h2, h3⟩ := h
  refine ⟨?_, h2, ?_⟩
  · intro c hc
    have := h1 c hc
    simp only [List.length_append]
    exact ⟨this.1, by omega⟩
  · intro b' hb'
    have hb'' := Option.some.inj hb'
    subst hb''
    refine ⟨rfl, by simp [List.length_append], ?_⟩
    intro c hc
    exact (h1 c hc).2

/-- The locator loop preserves the span invariant. -/
lemma loop_spanInv (src : Chars) :
    ∀ fuel pos st, SpanInv st → SpanInv (loop src fuel pos st) := by
  intro fuel pos st
  induction fuel, pos, st using loop.induct src with
  | case1 x st =>
    intro h
    simpa [loop] using h
  | case2 fuel pos st ho =>
    intro h
    have hstep : loop src (fuel+1) pos st = st := by
      conv_lhs => unfold loop
      rw [ho]
    rw [hstep]
    exact h
  | case3 fuel pos st ts te b hb ho ih =>
    intro h
    have hstep : loop src (fuel+1) pos st = loop src fuel te
        { output_str := st.output_str,
          shortcodes := st.shortcodes ++
            [{ name := b.name, args := b.args,
               span := (st.output_str.length - (b.openblock_span.2 - b.openblock_span.1),
                        st.output_str.length),
               body := some (sub src b.body_start ts) }],
          current_body := none, last_lex_end := te } := by
      conv_lhs => unfold loop
      simp only [ho, hb, if_true]
    rw [hstep]
    exact ih (spanInv_pop st b hb h _ te)
  | case4 fuel pos st ts te hb ho ih =>
    intro h
    have hstep : loop src (fuel+1) pos st = loop src fuel te st := by
      conv_lhs => unfold loop
      simp only [ho, hb, if_true]
    rw [hstep]
    exact ih h
  | case5 fuel pos st tok ts te ho hne hcb ih =>
    intro h
    have hstep : loop src (fuel+1) pos st = loop src fuel te st := by
      conv_lhs => unfold loop
      simp only [ho]
      rw [if_neg hne, if_pos hcb]
    rw [hstep]
    exact ih h
  | case6 fuel pos st tok ts te ho hne hcb st1 hit ih =>
    intro h
    have hbn : st.current_body = none := Option.not_isSome_iff_eq_none.mp hcb
    have hstep : loop src (fuel+1) pos st = loop src fuel te
        { output_str := st.output_str ++ sub src st.last_lex_end ts,
          shortcodes := st.shortcodes,
          current_body := st.current_body, last_lex_end := ts } := by
      conv_lhs => unfold loop
      simp only [ho]
      rw [if_neg hne, if_neg hcb]
      simp only [hit]
    rw [hstep]
    exact ih (spanInv_append st hbn h _ ts)
  | case7 fuel pos st tok ts te ho hne hcb st1 nm args ie hit hcl ih =>
    intro h
    have hbn : st.current_body = none := Option.not_isSome_iff_eq_none.mp hcb
    have hstep : loop src (fuel+1) pos st = loop src fuel src.length
        { output_str := st.output_str ++ sub src st.last_lex_end ts,
          shortcodes := st.shortcodes,
          current_body := st.current_body, last_lex_end := ts } := by
      conv_lhs => unfold loop
      simp only [ho]
      rw [if_neg hne, if_neg hcb]
      simp only [hit, hcl]
    rw [hstep]
    exact ih (spanInv_append st hbn h _ ts)
  | case8 fuel pos st tok ts te ho hne hcb st1 nm args ie hit ct _cs ce hcl hok ih =>
    intro h
    have hbn : st.current_body = none := Option.not_isSome_iff_eq_none.mp hcb
    have h1 : SpanInv { output_str := st.output_str ++ sub src st.last_lex_end ts,
                        shortcodes := st.shortcodes,
                        current_body := st.current_body, last_lex_end := ts } :=
      spanInv_append st hbn h _ ts
    have hstep : loop src (fuel+1) pos st = loop src fuel ce
        { output_str := (st.output_str ++ sub src st.last_lex_end ts) ++ SHORTCODE_PLACEHOLDER,
          shortcodes := st.shortcodes ++
            [{ name := nm, args := args,
               span := ((st.output_str ++ sub src st.last_lex_end ts).length,
                        (st.output_str ++ sub src st.last_lex_end ts).length +
                          SHORTCODE_PLACEHOLDER.length),
               body := none }],
          current_body := st.current_body, last_lex_end := ce } := by
      conv_lhs => unfold loop
      simp only [ho]
      rw [if_neg hne, if_neg hcb]
      simp only [hit, hcl]
      rw [if_pos hok]
    rw [hstep]
    exact ih (spanInv_emit (LocState.mk (st.output_str ++ sub src st.last_lex_end ts) st.shortcodes st.current_body ts) hbn h1 nm args ce)
  | case9 fuel pos st tok ts te ho hne hcb st1 nm args ie hit ct _cs ce hcl hno hok ih =>
    intro h
    have hbn : st.current_body = none := Option.not_isSome_iff_eq_none.mp hcb
    have h1 : SpanInv { output_str := st.output_str ++ sub src st.last_lex_end ts,
                        shortcodes := st.shortcodes,
                        current_body := st.current_body, last_lex_end := ts } :=
      spanInv_append st hbn h _ ts
    have hstep : loop src (fuel+1) pos st = loop src fuel ce
        { output_str := (st.output_str ++ sub src st.last_lex_end ts) ++ SHORTCODE_PLACEHOLDER,
          shortcodes := st.shortcodes,
          current_body := some
            { name := nm, args := args,
              openblock_span := ((st.output_str ++ sub src st.last_lex_end ts).length,
                                 (st.output_str ++ sub src st.last_lex_end ts).length +
                                   SHORTCODE_PLACEHOLDER.length),
              body_start := ce },
          last_lex_end := ce } := by
      conv_lhs => unfold loop
      simp only [ho]
      rw [if_neg hne, if_neg hcb]
      simp only [hit, hcl]
      rw [if_neg hno, if_pos hok]
    rw [hstep]
    exact ih (spanInv_open (LocState.mk (st.output_str ++ sub src st.last_lex_end ts) st.shortcodes st.current_body ts) hbn h1 nm args ce ce)
  | case10 fuel pos st tok ts te ho hne hcb st1 nm args ie hit ct _cs ce hcl hno1 hno2 ih =>
    intro h
    have hbn : st.current_body = none := Option.not_isSome_iff_eq_none.mp hcb
    have hstep : loop src (fuel+1) pos st = loop src fuel te
        { output_str := st.output_str ++ sub src st.last_lex_end ts,
          shortcodes := st.shortcodes,
          current_body := st.current_body, last_lex_end := ts } := by
      conv_lhs => unfold loop
      simp only [ho]
      rw [if_neg hne, if_neg hcb]
      simp only [hit, hcl]
      rw [if_neg hno1, if_neg hno2]
    rw [hstep]
    exact ih (spanInv_append st hbn h _ ts)

/-! Single step equations of the locator loop. -/

/-- While a bodied frame is open, any token other than an end marker is
skipped without touching the state. -/
lemma loop_step_in_body (src : Chars) (fuel pos : Nat) (st : LocState) (b : BodiedStackItem)
    (t : Openers) (ts te : Nat)
    (hb : st.current_body = some b)
    (ho : openersNext src pos = some (t, ts, te)) (hne : t ≠ Openers.EndBlock) :
    loop src (fuel+1) pos st = loop src fuel te st := by
  conv_lhs => unfold loop
  simp only [ho]
  rw [if_neg hne, if_pos (by rw [hb]; rfl)]

/-- An end marker found while no frame is open is skipped without touching
the state. -/
lemma loop_step_spurious_end (src : Chars) (fuel pos : Nat) (st : LocState) (ts te : Nat)
    (hb : st.current_body = none)
    (ho : openersNext src pos = some (Openers.EndBlock, ts, te)) :
    loop src (fuel+1) pos st = loop src fuel te st := by
  conv_lhs => unfold loop
  simp only [ho, hb, if_true]

/-- An end marker found while a frame is open pops the frame into a
descriptor carrying the verbatim body text. -/
lemma loop_step_pop (src : Chars) (fuel pos : Nat) (st : LocState) (b : BodiedStackItem)
    (ts te : Nat)
    (hb : st.current_body = some b)
    (ho : openersNext src pos = some (Openers.EndBlock, ts, te)) :
    loop src (fuel+1) pos st = loop src fuel te
      { output_str := st.output_str,
        shortcodes := st.shortcodes ++
          [{ name := b.name, args := b.args,
             span := (st.output_str.length - (b.openblock_span.2 - b.openblock_span.1),
                      st.output_str.length),
             body := some (sub src b.body_start ts) }],
        current_body := none, last_lex_end := te } := by
  conv_lhs => unfold loop
  simp only [ho, hb, if_true]

/-- A failing inner tag parse aborts the attempt: the text before the opener
is copied, the copy cursor moves to the opener and scanning resumes after
the opener token. -/
lemma loop_step_lex_fail (src : Chars) (fuel pos : Nat) (st : LocState)
    (t : Openers) (ts te : Nat)
    (hcb : ¬st.current_body.isSome = true)
    (ho : openersNext src pos = some (t, ts, te)) (hne : t ≠ Openers.EndBlock)
    (hit : InnerTag.lex_parse src te = none) :
    loop src (fuel+1) pos st = loop src fuel te
      { st with output_str := st.output_str ++ sub src st.last_lex_end ts,
                last_lex_end := ts } := by
  conv_lhs => unfold loop
  simp only [ho]
  rw [if_neg hne, if_neg hcb]
  simp only [hit]

/-- When no closer token at all is found before end of input, the lexer is
moved to the end of the string with the attempt aborted. -/
lemma loop_step_closer_none (src : Chars) (fuel pos : Nat) (st : LocState)
    (t : Openers) (ts te : Nat) (nm : Chars) (args : List (Chars × ArgValue)) (ie : Nat)
    (hcb : ¬st.current_body.isSome = true)
    (ho : openersNext src pos = some (t, ts, te)) (hne : t ≠ Openers.EndBlock)
    (hit : InnerTag.lex_parse src te = some (nm, args, ie))
    (hcl : closersNext src ie = none) :
    loop src (fuel+1) pos st = loop src fuel src.length
      { st with output_str := st.output_str ++ sub src st.last_lex_end ts,
                last_lex_end := ts } := by
  conv_lhs => unfold loop
  simp only [ho]
  rw [if_neg hne, if_neg hcb]
  simp only [hit, hcl]

/-- A closer token that does not agree with the opener (in style, or an
error token) aborts the attempt: no descriptor is recorded, the copy cursor
stays at the opener and scanning resumes after the opener token. -/
lemma loop_step_abort (src : Chars) (fuel pos : Nat) (st : LocState)
    (t : Openers) (ts te : Nat) (nm : Chars) (args : List (Chars × ArgValue)) (ie : Nat)
    (ct : Closers) (cs ce : Nat)
    (hcb : ¬st.current_body.isSome = true)
    (ho : openersNext src pos = some (t, ts, te)) (hne : t ≠ Openers.EndBlock)
    (hit : InnerTag.lex_parse src te = some (nm, args, ie))
    (hcl : closersNext src ie = some (ct, cs, ce))
    (hno1 : ¬(t = Openers.Normal ∧ ct = Closers.Normal))
    (hno2 : ¬(t = Openers.Body ∧ ct = Closers.Body)) :
    loop src (fuel+1) pos st = loop src fuel te
      { st with output_str := st.output_str ++ sub src st.last_lex_end ts,
                last_lex_end := ts } := by
  conv_lhs => unfold loop
  simp only [ho]
  rw [if_neg hne, if_neg hcb]
  simp only [hit, hcl]
  rw [if_neg hno1, if_neg hno2]

/-! Behaviour with an open frame and no end marker (claim C3). -/

/-- Boolean test: the scan result is not an end marker token. -/
def noEndB : Option (Openers × Nat × Nat) → Bool
  | none => true
  | some (t, _, _) => !(t == Openers.EndBlock)

/-- If a bodied frame is open and the remaining input holds no end marker
token, the loop changes nothing at all: no descriptor is emitted, the output
written so far (including the frame's placeholder) and the copy cursor stay
exactly as they are. -/
lemma loop_no_end (src : Chars) (st : LocState) (b : BodiedStackItem)
    (hb : st.current_body = some b)
    (H : ∀ j, j < src.length → noEndB (openersNext src j) = true) :
    ∀ fuel pos, loop src fuel pos st = st := by
  intro fuel
  induction fuel with
  | zero => intro pos; rfl
  | succ n ih =>
    intro pos
    cases ho : openersNext src pos with
    | none =>
      conv_lhs => unfold loop
      rw [ho]
    | some v =>
      obtain ⟨t, ts, te⟩ := v
      obtain ⟨hpos, hlt, hle, hsl, htok⟩ := openersNext_some ho
      have hself := openersNext_self ho
      have hne : ¬t = Openers.EndBlock := by
        have hH := H ts hsl
        rw [hself] at hH
        simpa [noEndB] using hH
      rw [loop_step_in_body src n pos st b t ts te hb ho hne]
      exact ih te

/-! Behaviour on inputs with no opener tokens (claim C9). -/

/-- Boolean test: the scan result is no recognized opening marker (either
nothing, or only an error token). -/
def noOpenerB : Option (Openers × Nat × Nat) → Bool
  | none => true
  | some (t, _, _) => t == Openers.Error

/-- On a source whose scan only ever produces error tokens, the loop keeps
the state in the shape "output is the prefix copied so far, no descriptors,
no open frame". -/
lemma loop_erronly (src : Chars)
    (H : ∀ j, j < src.length → noOpenerB (openersNext src j) = true) :
    ∀ fuel pos L, L ≤ pos →
      ∃ M, loop src fuel pos (LocState.mk (src.take L) [] none L) =
           LocState.mk (src.take M) [] none M := by
  intro fuel
  induction fuel with
  | zero => intro pos L _; exact ⟨L, rfl⟩
  | succ n ih =>
    intro pos L hL
    cases ho : openersNext src pos with
    | none =>
      refine ⟨L, ?_⟩
      conv_lhs => unfold loop
      rw [ho]
    | some v =>
      obtain ⟨t, ts, te⟩ := v
      obtain ⟨hpos, hlt, hle, hsl, htok⟩ := openersNext_some ho
      have hself := openersNext_self ho
      have ht : t = Openers.Error := by
        have hH := H ts hsl
        rw [hself] at hH
        simpa [noOpenerB] using hH
      subst ht
      have hne : ¬Openers.Error = Openers.EndBlock := by decide
      have hcb : ¬(LocState.mk (src.take L) ([] : List ShortcodeContext) none L).current_body.isSome
          = true := by simp
      have hsub : (LocState.mk (src.take L) ([] : List ShortcodeContext) none L).output_str ++
          sub src (LocState.mk (src.take L) ([] : List ShortcodeContext) none L).last_lex_end ts
          = src.take ts := take_append_sub src L ts (by omega)
      cases hit : InnerTag.lex_parse src te with
      | none =>
        rw [loop_step_lex_fail src n pos _ _ ts te hcb ho hne hit]
        have hshape : ({ LocState.mk (src.take L) [] none L with
            output_str := (LocState.mk (src.take L) ([] : List ShortcodeContext) none L).output_str
              ++ sub src (LocState.mk (src.take L) ([] : List ShortcodeContext) none L).last_lex_end ts,
            last_lex_end := ts } : LocState) = LocState.mk (src.take ts) [] none ts := by
          rw [LocState.mk.injEq]
          exact ⟨hsub, rfl, rfl, rfl⟩
        rw [hshape]
        exact ih te ts (by omega)
      | some v2 =>
        obtain ⟨nm, args, ie⟩ := v2
        cases hcl : closersNext src ie with
        | none =>
          rw [loop_step_closer_none src n pos _ _ ts te nm args ie hcb ho hne hit hcl]
          have hshape : ({ LocState.mk (src.take L) [] none L with
              output_str := (LocState.mk (src.take L) ([] : List ShortcodeContext) none L).output_str
                ++ sub src (LocState.mk (src.take L) ([] : List ShortcodeContext) none L).last_lex_end ts,
              last_lex_end := ts } : LocState) = LocState.mk (src.take ts) [] none ts := by
            rw [LocState.mk.injEq]
            exact ⟨hsub, rfl, rfl, rfl⟩
          rw [hshape]
          exact ih src.length ts (by omega)
        | some w =>
          obtain ⟨ct, cs, ce⟩ := w
          rw [loop_step_abort src n pos _ _ ts te nm args ie ct cs ce hcb ho hne hit hcl
            (by simp) (by simp)]
          have hshape : ({ LocState.mk (src.take L) [] none L with
              output_str := (LocState.mk (src.take L) ([] : List ShortcodeContext) none L).output_str
                ++ sub src (LocState.mk (src.take L) ([] : List ShortcodeContext) none L).last_lex_end ts,
              last_lex_end := ts } : LocState) = LocState.mk (src.take ts) [] none ts := by
            rw [LocState.mk.injEq]
            exact ⟨hsub, rfl, rfl, rfl⟩
          rw [hshape]
          exact ih te ts (by omega)

/-! Closer mode skipping (claim C1). -/

/-- In closer mode, a character that is not whitespace, not `%` and not `}`
is skipped: the closer scan gives the same result as from the next
position. -/
lemma closersNext_skip (s : Chars) (i : Nat) (c : Char)
    (hc : s.get? i = some c) (hw : isWs c = false) (h1 : c ≠ '%') (h2 : c ≠ rbrace) :
    closersNext s i = closersNext s (i+1) := by
  have hlt : i < s.length := get?_lt hc
  have hdrop : s.drop i = s[i] :: s.drop (i+1) := List.drop_eq_getElem_cons hlt
  have hgi : s[i] = c := by
    have := List.get?_eq_get hlt
    rw [hc] at this
    exact (Option.some.inj this).symm
  have hwr : wsRunAux (s.drop i) = 0 := by
    rw [hdrop, hgi]
    simp [wsRunAux, hw]
  have hwe : wsEnd s i = i := by
    unfold wsEnd
    omega
  have htok : closerTokAt s i = none := by
    unfold closerTokAt
    rw [hwe, hc]
    rw [if_neg (by rintro ⟨hA, -⟩; exact h1 (Option.some.inj hA))]
    rw [if_neg (by rintro ⟨hA, -⟩; exact h2 (Option.some.inj hA))]
  unfold closersNext
  conv_lhs => rw [hdrop]
  conv_lhs => unfold closersNextAux
  simp only [htok, hgi]
  rw [if_neg (by rintro (hA | hA) <;> first | exact h1 hA | exact h2 hA)]


/-! Concrete inputs used by the claims. -/

/-- The identifier `a` as a character list. -/
def nameA : Chars := ("a".toList)

/-- Input with non-whitespace junk between the argument list and the
closer. -/
def STR_C1 : Chars := ("\x7b\x7b a() junk \x7d\x7d".toList)

/-- Input with a self closing directive nested in a body. -/
def STR_C2 : Chars := ("\x7b% a() %\x7d\x7b\x7b b() \x7d\x7d\x7b% end %\x7d".toList)

/-- The body captured for the outer directive of `STR_C2`. -/
def BODY_C2 : Chars := ("\x7b\x7b b() \x7d\x7d".toList)

/-- Input with an unterminated body. -/
def STR_C3 : Chars := ("\x7b% a() %\x7dabc".toList)

/-- The rewritten output for `STR_C3`: an orphaned placeholder and the
remaining text. -/
def OUT_C3 : Chars := SHORTCODE_PLACEHOLDER ++ ("abc".toList)

/-- Input with a body opener embedded in a body. -/
def STR_C6 : Chars := ("\x7b% a() %\x7d\x7b% a() %\x7dWow!\x7b% end %\x7d\x7b% end %\x7d".toList)

/-- The rewritten output for `STR_C6`. -/
def OUT_C6 : Chars := SHORTCODE_PLACEHOLDER ++ ("\x7b% end %\x7d".toList)

/-- The body captured for the outer directive of `STR_C6`. -/
def BODY_C6 : Chars := ("\x7b% a() %\x7dWow!".toList)

/-- Input whose opener and closer styles disagree. -/
def STR_C7 : Chars := ("\x7b\x7b abc() %\x7d".toList)

/-- Input with a spurious end marker and no open frame. -/
def STR_C8 : Chars := ("abc\x7b% end %\x7ddef".toList)

/-- Input whose closer scan meets a stray `%` (an error token). -/
def STR_C1E : Chars := ("\x7b\x7b a() x%y \x7d\x7d".toList)

/-- Input with no closer token at all after the argument list. -/
def STR_C1N : Chars := ("\x7b\x7b a() no close".toList)

/-! Facts about the span translator. -/

/-- The relation is `Before` exactly when the position is left of the span
start. -/
lemma get_range_relation_before (s : Nat × Nat) (p : Nat) :
    get_range_relation s p = RangeToPositionRelation.Before ↔ p < s.1 := by
  unfold get_range_relation
  by_cases h1 : p < s.1
  · simp [h1]
  · by_cases h2 : p ≥ s.2 <;> simp [h1, h2]

/-- A growing edit before the span shifts it right by the delta. -/
lemma update_before_grow (s : Nat × Nat) (p ol nl : Nat) (h : p < s.1) (hg : ol < nl) :
    update_on_source_insert s p ol nl = some (s.1 + (nl - ol), s.2 + (nl - ol)) := by
  unfold update_on_source_insert
  simp only [(get_range_relation_before s p).mpr h]
  simp [range_shift, hg]

/-- A shrinking edit before the span shifts it left by the delta, provided
the delta does not exceed the span start. -/
lemma update_before_shrink (s : Nat × Nat) (p ol nl : Nat) (h : p < s.1) (hg : nl ≤ ol)
    (hd : ol - nl ≤ s.1) :
    update_on_source_insert s p ol nl = some (s.1 - (ol - nl), s.2 - (ol - nl)) := by
  unfold update_on_source_insert
  simp only [(get_range_relation_before s p).mpr h]
  have hng : ¬ol < nl := by omega
  simp only [hng, if_false, ite_false, if_neg hng]
  unfold range_shift
  simp only [hng, decide_eq_false hng, Bool.not_false, if_neg (by omega : ¬s.1 < ol - nl)]
  simp

/-- An edit not classified `Before` leaves the span untouched. -/
lemma update_not_before (s : Nat × Nat) (p ol nl : Nat)
    (h : ¬get_range_relation s p = RangeToPositionRelation.Before) :
    update_on_source_insert s p ol nl = some s := by
  unfold update_on_source_insert
  cases hrel : get_range_relation s p with
  | Before => exact absurd hrel h
  | Within => simp only [hrel]
  | After => simp only [hrel]

/-! The claims. -/

/-- C1 counterexample: for the input `{{ a() junk }}` the non whitespace
text `junk` (which is not a recognized closer) follows the argument list's
closing parenthesis, yet the directive attempt is not aborted: a descriptor
for `a` is emitted and the text is replaced by the placeholder rather than
preserved literally. -/
theorem claim_C1_counterexample :
    fetch_shortcodes STR_C1 =
      (SHORTCODE_PLACEHOLDER, [ShortcodeContext.mk nameA [] (0, 8) none]) ∧
    (fetch_shortcodes STR_C1).1 ≠ STR_C1 ∧
    (fetch_shortcodes STR_C1).2 ≠ [] := by
  refine ⟨rfl, by decide, ?_⟩
  intro h
  exact List.cons_ne_nil _ _
    ((rfl : (fetch_shortcodes STR_C1).2 =
      [ShortcodeContext.mk nameA [] (0, 8) none]).symm.trans h)

/-- C1 (amended): in closer mode, text made of characters other than `%` and
`}` (whitespace or not) is skipped before the closing delimiter; the
directive attempt is aborted exactly when the first closer token found after
the argument list is not a recognized closer matching the opener: an error
token (a stray `%` or `}`), a closer of the other style (claim C7), or no
token at all before end of input.  In the aborted cases no descriptor is
emitted and the text is preserved literally (the copy cursor stays at the
opener). -/
theorem claim_C1_amended_closer_skipping :
    (∀ (s : Chars) i c, s.get? i = some c → isWs c = false → c ≠ '%' → c ≠ rbrace →
      closersNext s i = closersNext s (i+1)) ∧
    (∀ src fuel pos (st : LocState) t ts te nm args ie cs ce,
      st.current_body = none →
      openersNext src pos = some (t, ts, te) → t ≠ Openers.EndBlock →
      InnerTag.lex_parse src te = some (nm, args, ie) →
      closersNext src ie = some (Closers.Error, cs, ce) →
      loop src (fuel+1) pos st = loop src fuel te
        (LocState.mk (st.output_str ++ sub src st.last_lex_end ts)
          st.shortcodes st.current_body ts)) ∧
    (∀ src fuel pos (st : LocState) t ts te nm args ie,
      st.current_body = none →
      openersNext src pos = some (t, ts, te) → t ≠ Openers.EndBlock →
      InnerTag.lex_parse src te = some (nm, args, ie) →
      closersNext src ie = none →
      loop src (fuel+1) pos st = loop src fuel src.length
        (LocState.mk (st.output_str ++ sub src st.last_lex_end ts)
          st.shortcodes st.current_body ts)) := by
  refine ⟨closersNext_skip, ?_, ?_⟩
  · intro src fuel pos st t ts te nm args ie cs ce hb ho hne hit hcl
    have hcb : ¬st.current_body.isSome = true := by rw [hb]; simp
    exact loop_step_abort src fuel pos st t ts te nm args ie Closers.Error cs ce hcb ho hne
      hit hcl (by rintro ⟨-, h⟩; exact absurd h (by decide))
      (by rintro ⟨-, h⟩; exact absurd h (by decide))
  · intro src fuel pos st t ts te nm args ie hb ho hne hit hcl
    have hcb : ¬st.current_body.isSome = true := by rw [hb]; simp
    exact loop_step_closer_none src fuel pos st t ts te nm args ie hcb ho hne hit hcl

/-- Witness for the amended C1: on `STR_C1` the character `j` is skipped by
the closer scan; on `STR_C1E` the stray `%` makes an error token and the
attempt aborts; on `STR_C1N` no closer token exists and the lexer jumps to
the end of input with the attempt aborted. -/
theorem claim_C1_amended_witness :
    STR_C1.get? 7 = some 'j' ∧ isWs 'j' = false ∧
    closersNext STR_C1 7 = closersNext STR_C1 8 ∧
    closersNext STR_C1E 6 = some (Closers.Error, 8, 9) ∧
    loop STR_C1E 3 0 (LocState.mk [] [] none 0) =
      loop STR_C1E 2 3 (LocState.mk [] [] none 0) ∧
    closersNext STR_C1N 6 = none ∧
    loop STR_C1N 3 0 (LocState.mk [] [] none 0) =
      loop STR_C1N 2 STR_C1N.length (LocState.mk [] [] none 0) := by
  refine ⟨rfl, rfl, ?_, rfl, ?_, rfl, ?_⟩
  · exact claim_C1_amended_closer_skipping.1 STR_C1 7 'j' rfl rfl (by decide) (by decide)
  · exact claim_C1_amended_closer_skipping.2.1 STR_C1E 2 0 (LocState.mk [] [] none 0)
      Openers.Normal 0 3 nameA [] 6 8 9 rfl rfl (by decide) rfl rfl
  · exact claim_C1_amended_closer_skipping.2.2 STR_C1N 2 0 (LocState.mk [] [] none 0)
      Openers.Normal 0 3 nameA [] 6 rfl rfl (by decide) rfl rfl

/-- C4: for every input, every descriptor returned by `fetch_shortcodes` has
`span.start ≤ span.end` with `span.end - span.start` equal to the fixed
placeholder width, each span lies inside the rewritten output string, and
the descriptors are returned in left to right order of their placeholders
with pairwise non overlapping spans. -/
theorem claim_C4_span_invariants (src : Chars) :
    (∀ c ∈ (fetch_shortcodes src).2,
       c.span.1 ≤ c.span.2 ∧
       c.span.2 - c.span.1 = SHORTCODE_PLACEHOLDER.length ∧
       c.span.2 ≤ (fetch_shortcodes src).1.length) ∧
    (fetch_shortcodes src).2.Pairwise (fun a b => a.span.2 ≤ b.span.1) := by
  have hInv := loop_spanInv src (src.length+1) 0 (LocState.mk [] [] none 0)
    ⟨by simp, by simp, by simp⟩
  obtain ⟨h1, h2, h3⟩ := hInv
  have hf2 : (fetch_shortcodes src).2 =
      (loop src (src.length+1) 0 (LocState.mk [] [] none 0)).shortcodes := rfl
  have hf1 : (fetch_shortcodes src).1 =
      (loop src (src.length+1) 0 (LocState.mk [] [] none 0)).output_str ++
        sub src (loop src (src.length+1) 0 (LocState.mk [] [] none 0)).last_lex_end
          src.length := rfl
  constructor
  · intro c hc
    rw [hf2] at hc
    obtain ⟨hw, hb⟩ := h1 c hc
    refine ⟨by omega, by omega, ?_⟩
    rw [hf1, List.length_append]
    omega
  · rw [hf2]
    exact h2

/-- C5 counterexample: for span `[10, 20)` an edit at position 2 (which
classifies as `Before`) shrinking length 20 to 0 does not shift the span
leftward by 20: the left shift would underflow, `range_shift` fails and the
`unwrap` of `update_on_source_insert` panics (modelled as `none`), so no
shifted span is produced at all. -/
theorem claim_C5_counterexample :
    get_range_relation (10, 20) 2 = RangeToPositionRelation.Before ∧
    update_on_source_insert (10, 20) 2 20 0 = none := ⟨rfl, rfl⟩

/-- C5 (amended): `update_on_source_insert` shifts a span by the absolute
length difference, rightward when the text grew and leftward when it shrank
provided the delta does not exceed `span.start` (otherwise the `unwrap`
panics), exactly when the edit position classifies as `Before`
(`position < span.start`); for `Within` or `After` the span is unchanged.
The three concrete cases of the claim hold as stated. -/
theorem claim_C5_amended_update_on_edit :
    update_on_source_insert (10, 20) 2 8 10 = some (12, 22) ∧
    update_on_source_insert (12, 22) 24 30 30 = some (12, 22) ∧
    update_on_source_insert (12, 22) 5 11 6 = some (7, 17) ∧
    (∀ (s : Nat × Nat) p,
      get_range_relation s p = RangeToPositionRelation.Before ↔ p < s.1) ∧
    (∀ (s : Nat × Nat) p ol nl, p < s.1 → ol < nl →
      update_on_source_insert s p ol nl = some (s.1 + (nl - ol), s.2 + (nl - ol))) ∧
    (∀ (s : Nat × Nat) p ol nl, p < s.1 → nl ≤ ol → ol - nl ≤ s.1 →
      update_on_source_insert s p ol nl = some (s.1 - (ol - nl), s.2 - (ol - nl))) ∧
    (∀ (s : Nat × Nat) p ol nl,
      ¬get_range_relation s p = RangeToPositionRelation.Before →
      update_on_source_insert s p ol nl = some s) :=
  ⟨rfl, rfl, rfl, get_range_relation_before, update_before_grow, update_before_shrink,
   update_not_before⟩

/-- Witness for the amended C5: the general parts applied at the three
concrete edits of the claim. -/
theorem claim_C5_amended_witness :
    ((2:Nat) < 10) ∧ ((8:Nat) < 10) ∧
    update_on_source_insert (10, 20) 2 8 10 = some (12, 22) ∧
    (¬get_range_relation (12, 22) 24 = RangeToPositionRelation.Before) ∧
    update_on_source_insert (12, 22) 24 7 7 = some (12, 22) ∧
    ((5:Nat) < 12) ∧ ((6:Nat) ≤ 11) ∧ ((11:Nat) - 6 ≤ 12) ∧
    update_on_source_insert (12, 22) 5 11 6 = some (7, 17) := by
  refine ⟨by decide, by decide, ?_, by decide, ?_, by decide, by decide, by decide, ?_⟩
  · exact claim_C5_amended_update_on_edit.2.2.2.2.1 (10, 20) 2 8 10 (by decide) (by decide)
  · exact claim_C5_amended_update_on_edit.2.2.2.2.2.2 (12, 22) 24 7 7 (by decide)
  · exact claim_C5_amended_update_on_edit.2.2.2.2.2.1 (12, 22) 5 11 6 (by decide)
      (by decide) (by decide)

/-- C9: for every input string in which the opener scan recognizes no
opening marker anywhere (no end marker, body opener or normal opener token;
lone error tokens from a stray `{` are allowed), `fetch_shortcodes` returns
the input itself unchanged together with an empty descriptor list. -/
theorem claim_C9_no_marker_identity (src : Chars)
    (H : ∀ j, j < src.length → noOpenerB (openersNext src j) = true) :
    fetch_shortcodes src = (src, []) := by
  obtain ⟨M, hM⟩ := loop_erronly src H (src.length+1) 0 0 (le_refl 0)
  simp only [List.take_zero] at hM
  show ((loop src (src.length+1) 0 (LocState.mk [] [] none 0)).output_str ++
      sub src (loop src (src.length+1) 0 (LocState.mk [] [] none 0)).last_lex_end src.length,
      (loop src (src.length+1) 0 (LocState.mk [] [] none 0)).shortcodes) = (src, [])
  rw [hM]
  show (src.take M ++ sub src M src.length, ([] : List ShortcodeContext)) = (src, [])
  rw [take_append_sub_length src M]

/-- Witness for C9 on the marker free input `abc`. -/
theorem claim_C9_witness :
    (∀ j, j < (("abc".toList) : Chars).length →
      noOpenerB (openersNext ("abc".toList) j) = true) ∧
    fetch_shortcodes ("abc".toList) = (("abc".toList), []) :=
  ⟨by decide, claim_C9_no_marker_identity ("abc".toList) (by decide)⟩

/-- C10: for every span and every edit position classified `Before`, if the
shrink is bounded by the span start (`original_length - new_length ≤
span.start`; growing edits satisfy this trivially in truncated natural
subtraction), then `range_shift` returns a shifted range and
`update_on_source_insert` returns the same range instead of reaching the
panicking `unwrap` branch. -/
theorem claim_C10_update_no_panic (s : Nat × Nat) (p ol nl : Nat)
    (h1 : get_range_relation s p = RangeToPositionRelation.Before)
    (h2 : ol - nl ≤ s.1) :
    ∃ r, range_shift s (if ol < nl then nl - ol else ol - nl) (decide (ol < nl)) = some r ∧
         update_on_source_insert s p ol nl = some r := by
  have hupd : update_on_source_insert s p ol nl =
      range_shift s (if ol < nl then nl - ol else ol - nl) (decide (ol < nl)) := by
    unfold update_on_source_insert
    simp only [h1]
  by_cases hg : ol < nl
  · refine ⟨(s.1 + (nl - ol), s.2 + (nl - ol)), ?_, ?_⟩
    · rw [if_pos hg]
      simp [range_shift, hg]
    · rw [hupd, if_pos hg]
      simp [range_shift, hg]
  · refine ⟨(s.1 - (ol - nl), s.2 - (ol - nl)), ?_, ?_⟩
    · rw [if_neg hg]
      unfold range_shift
      simp only [decide_eq_false hg, Bool.not_false, if_pos, if_neg (by omega : ¬s.1 < ol - nl)]
    · rw [hupd, if_neg hg]
      unfold range_shift
      simp only [decide_eq_false hg, Bool.not_false, if_pos, if_neg (by omega : ¬s.1 < ol - nl)]

/-- Witness for C10 at the concrete edit `(span [10, 20), position 2,
length 20 shrinking to 15)`. -/
theorem claim_C10_witness :
    get_range_relation (10, 20) 2 = RangeToPositionRelation.Before ∧
    ((20:Nat) - 15 ≤ 10) ∧
    (∃ r, range_shift (10, 20) (if (20:Nat) < 15 then 15 - 20 else 20 - 15)
        (decide ((20:Nat) < 15)) = some r ∧
      update_on_source_insert (10, 20) 2 20 15 = some r) :=
  ⟨rfl, by decide, claim_C10_update_no_panic (10, 20) 2 20 15 rfl (by decide)⟩

/-- C2: a directive whose opening marker occurs inside the body of the
currently open bodied directive is never emitted as a separate descriptor in
the same pass: while a frame is open every token other than an end marker is
skipped with the state untouched, and the end marker pops exactly the
enclosing frame, whose body is the verbatim source slice from the body start
to the end marker.  In particular `locate` on
`{% a() %}{{ b() }}{% end %}` yields exactly one descriptor, for `a`, with
body `{{ b() }}`. -/
theorem claim_C2_nested_directives_opaque :
    fetch_shortcodes STR_C2 =
      (SHORTCODE_PLACEHOLDER, [ShortcodeContext.mk nameA [] (0, 8) (some BODY_C2)]) ∧
    (∀ src fuel pos (st : LocState) (b : BodiedStackItem) t ts te,
      st.current_body = some b →
      openersNext src pos = some (t, ts, te) → t ≠ Openers.EndBlock →
      loop src (fuel+1) pos st = loop src fuel te st) ∧
    (∀ src fuel pos (st : LocState) (b : BodiedStackItem) ts te,
      st.current_body = some b →
      openersNext src pos = some (Openers.EndBlock, ts, te) →
      loop src (fuel+1) pos st = loop src fuel te
        (LocState.mk st.output_str
          (st.shortcodes ++ [ShortcodeContext.mk b.name b.args
            (st.output_str.length - (b.openblock_span.2 - b.openblock_span.1),
             st.output_str.length) (some (sub src b.body_start ts))])
          none te)) := by
  refine ⟨rfl, ?_, ?_⟩
  · intro src fuel pos st b t ts te hb ho hne
    exact loop_step_in_body src fuel pos st b t ts te hb ho hne
  · intro src fuel pos st b ts te hb ho
    exact loop_step_pop src fuel pos st b ts te hb ho

/-- Witness for C2 at concrete inputs: inside the body of `STR_C2`, the
nested normal opener at position 9 is skipped with the state untouched, and
the end marker at 18 pops the frame into the descriptor with the verbatim
body. -/
theorem claim_C2_witness :
    (LocState.mk SHORTCODE_PLACEHOLDER []
        (some (BodiedStackItem.mk nameA [] (0, 8) 9)) 9).current_body
      = some (BodiedStackItem.mk nameA [] (0, 8) 9) ∧
    openersNext STR_C2 9 = some (Openers.Normal, 9, 12) ∧
    openersNext STR_C2 12 = some (Openers.EndBlock, 18, 27) ∧
    loop STR_C2 4 9 (LocState.mk SHORTCODE_PLACEHOLDER []
        (some (BodiedStackItem.mk nameA [] (0, 8) 9)) 9)
      = loop STR_C2 3 12 (LocState.mk SHORTCODE_PLACEHOLDER []
        (some (BodiedStackItem.mk nameA [] (0, 8) 9)) 9) ∧
    loop STR_C2 3 12 (LocState.mk SHORTCODE_PLACEHOLDER []
        (some (BodiedStackItem.mk nameA [] (0, 8) 9)) 9)
      = loop STR_C2 2 27 (LocState.mk SHORTCODE_PLACEHOLDER
        [ShortcodeContext.mk nameA [] (0, 8) (some BODY_C2)] none 27) :=
  by
  refine ⟨rfl, rfl, rfl, ?_, ?_⟩
  · exact claim_C2_nested_directives_opaque.2.1 STR_C2 3 9
      (LocState.mk SHORTCODE_PLACEHOLDER [] (some (BodiedStackItem.mk nameA [] (0, 8) 9)) 9)
      (BodiedStackItem.mk nameA [] (0, 8) 9) Openers.Normal 9 12 rfl rfl (by decide)
  · exact claim_C2_nested_directives_opaque.2.2 STR_C2 2 12
      (LocState.mk SHORTCODE_PLACEHOLDER [] (some (BodiedStackItem.mk nameA [] (0, 8) 9)) 9)
      (BodiedStackItem.mk nameA [] (0, 8) 9) 18 27 rfl rfl

/-- C3: on an input whose body carrying directive has no matching end marker
before end of input, `locate` returns normally with no descriptor for that
directive, and the placeholder already appended for its opener remains in
the output: concretely `locate` on `{% a() %}abc` returns the placeholder
followed by `abc` with an empty descriptor list, and in general, once a
frame is open, a remaining input without any end marker token leaves the
loop state (output, descriptors, frame, cursor) completely unchanged. -/
theorem claim_C3_unterminated_body_dropped :
    fetch_shortcodes STR_C3 = (OUT_C3, []) ∧
    (∀ src (st : LocState) (b : BodiedStackItem), st.current_body = some b →
      (∀ j, j < src.length → noEndB (openersNext src j) = true) →
      ∀ fuel pos, loop src fuel pos st = st) :=
  ⟨rfl, fun src st b hb H => loop_no_end src st b hb H⟩

/-- Witness for C3: the state reached after opening the body of `STR_C3`
(placeholder written, frame anchored at span `[0, 8)`) is left unchanged by
the rest of the scan, which holds no end marker. -/
theorem claim_C3_witness :
    (LocState.mk SHORTCODE_PLACEHOLDER []
        (some (BodiedStackItem.mk nameA [] (0, 8) 9)) 9).current_body
      = some (BodiedStackItem.mk nameA [] (0, 8) 9) ∧
    (∀ j, j < STR_C3.length → noEndB (openersNext STR_C3 j) = true) ∧
    loop STR_C3 4 9 (LocState.mk SHORTCODE_PLACEHOLDER []
        (some (BodiedStackItem.mk nameA [] (0, 8) 9)) 9)
      = LocState.mk SHORTCODE_PLACEHOLDER []
        (some (BodiedStackItem.mk nameA [] (0, 8) 9)) 9 :=
  ⟨rfl, by decide,
   claim_C3_unterminated_body_dropped.2 STR_C3 _ _ rfl (by decide) 4 9⟩

/-- C6: `locate` on `{% a() %}{% a() %}Wow!{% end %}{% end %}` yields
exactly one descriptor, for the outer `a`, with body `{% a() %}Wow!`: the
first end marker closes the open body even though the body text contains a
body opener, and the inner occurrence is never emitted. -/
theorem claim_C6_first_end_marker_closes :
    fetch_shortcodes STR_C6 =
      (OUT_C6, [ShortcodeContext.mk nameA [] (0, 8) (some BODY_C6)]) := rfl

/-- C7: a delimiter style mismatch between opener and closer leaves the text
intact: `locate` on `{{ abc() %}` returns the input unchanged with no
descriptors, and in general an opener answered by a closer of the other
style aborts the attempt, with no descriptor recorded and the copy cursor
left at the opener so its text is copied verbatim later. -/
theorem claim_C7_mismatched_styles_inert :
    fetch_shortcodes STR_C7 = (STR_C7, []) ∧
    (∀ src fuel pos (st : LocState) t ts te nm args ie ct cs ce,
      st.current_body = none →
      openersNext src pos = some (t, ts, te) → t ≠ Openers.EndBlock →
      InnerTag.lex_parse src te = some (nm, args, ie) →
      closersNext src ie = some (ct, cs, ce) →
      ((t = Openers.Normal ∧ ct = Closers.Body) ∨
       (t = Openers.Body ∧ ct = Closers.Normal)) →
      loop src (fuel+1) pos st = loop src fuel te
        (LocState.mk (st.output_str ++ sub src st.last_lex_end ts)
          st.shortcodes st.current_body ts)) := by
  refine ⟨rfl, ?_⟩
  intro src fuel pos st t ts te nm args ie ct cs ce hb ho hne hit hcl hsty
  have hcb : ¬st.current_body.isSome = true := by rw [hb]; simp
  rcases hsty with ⟨rfl, rfl⟩ | ⟨rfl, rfl⟩
  · exact loop_step_abort src fuel pos st _ ts te nm args ie _ cs ce hcb ho hne hit hcl
      (by decide) (by decide)
  · exact loop_step_abort src fuel pos st _ ts te nm args ie _ cs ce hcb ho hne hit hcl
      (by decide) (by decide)

/-- Witness for C7: on `STR_C7` the normal opener at 0 is answered by the
body closer at 8, and the attempt aborts with the state preserved. -/
theorem claim_C7_witness :
    InnerTag.lex_parse STR_C7 3 = some (("abc".toList), [], 8) ∧
    closersNext STR_C7 8 = some (Closers.Body, 8, 11) ∧
    loop STR_C7 3 0 (LocState.mk [] [] none 0) =
      loop STR_C7 2 3 (LocState.mk [] [] none 0) :=
  ⟨rfl, rfl,
   claim_C7_mismatched_styles_inert.2 STR_C7 2 0 _ Openers.Normal 0 3 _ [] 8
     Closers.Body 8 11 rfl rfl (by decide) rfl rfl (Or.inl ⟨rfl, rfl⟩)⟩

/-- C8: an end marker met while no bodied directive is open produces no
descriptor and no error; the marker is skipped with the state (and so the
copy cursor) untouched, so its text is preserved as ordinary literal text:
`locate` on `abc{% end %}def` returns the input unchanged with no
descriptors. -/
theorem claim_C8_spurious_end_discarded :
    fetch_shortcodes STR_C8 = (STR_C8, []) ∧
    (∀ src fuel pos (st : LocState) ts te, st.current_body = none →
      openersNext src pos = some (Openers.EndBlock, ts, te) →
      loop src (fuel+1) pos st = loop src fuel te st) :=
  ⟨rfl, fun src fuel pos st ts te hb ho =>
    loop_step_spurious_end src fuel pos st ts te hb ho⟩

/-- Witness for C8: the end marker of `STR_C8` spanning `[3, 12)` is skipped
with the state untouched. -/
theorem claim_C8_witness :
    openersNext STR_C8 0 = some (Openers.EndBlock, 3, 12) ∧
    loop STR_C8 3 0 (LocState.mk [] [] none 0) =
      loop STR_C8 2 12 (LocState.mk [] [] none 0) :=
  ⟨rfl, claim_C8_spurious_end_discarded.2 STR_C8 2 0 _ 3 12 rfl rfl⟩

end ZolaShortcode
